import Mathlib

/-!
Verification of the sliding-window inference engine in
`mlpipeline/samplers/inferer.py` (`sliding_window_inference` and
`MySlidingInferer`) via a shallow embedding.  Spatial geometry, control
flow and error behaviour are modelled exactly from the source; tensors
are modelled at shape level, and the weight accumulation at value level
over the rationals (the exact-rational reading of the float arithmetic).
The scan planner helpers `_get_scan_interval` and `dense_patch_slices`
are imported by the source from the external `monai` package and are not
part of the repository, so they are modelled from the spec where noted.
-/

namespace SWI

/-- Python `int(q)` on the nonnegative rationals arising in the code:
truncation toward zero, which on nonnegative values is the floor. -/
def pyInt (q : ℚ) : ℤ := ⌊q⌋

/-- Python `round(q)` to the nearest integer (Lean's `round` resolves
halves upward where Python resolves them to even; no statement below
depends on the tie case). -/
def pyRound (q : ℚ) : ℤ := round q

/-- Python `float.is_integer()`, read on the exact rational model. -/
def ratIsInt (q : ℚ) : Bool := q.den == 1

/-- Modelled from the spec: the per-axis scan stride of the Padding and
Scan Planner, `stride = round(window_size * (1 - o))` — the source calls
`_get_scan_interval`, which lives in the external `monai` package, not
in this repository. -/
def strideNat (w : Nat) (o : ℚ) : Nat := (pyRound ((w : ℚ) * (1 - o))).toNat

/-- Modelled from the spec: the number of window placements on one axis
of padded extent `n` with window `w` and stride `s`: placements start at
`0, s, 2s, ...` and the final one is clamped flush with the boundary
(the source calls `dense_patch_slices` from the external `monai`
package). -/
def numSteps (n w s : Nat) : Nat := (n - w + (s - 1)) / s + 1

/-- Modelled from the spec: the per-axis start coordinates of the window
placements covering `[0, n)`; placement `i` covers
`[start i, start i + w)` and the final placement is clamped flush with
the padded boundary. -/
def axisStarts (n w s : Nat) : List Nat :=
  (List.range (numSteps n w s)).map (fun i => min (i * s) (n - w))

theorem axisStarts_length (n w s : Nat) :
    (axisStarts n w s).length = numSteps n w s := by
  simp [axisStarts]

theorem axisStarts_getElem (n w s i : Nat) (h : i < (axisStarts n w s).length) :
    (axisStarts n w s)[i] = min (i * s) (n - w) := by
  simp [axisStarts]

theorem numSteps_pos (n w s : Nat) : 0 < numSteps n w s := by
  simp [numSteps]

/-- The stride never exceeds the window size when the overlap fraction
is nonnegative. -/
theorem strideNat_le (w : Nat) (o : ℚ) (ho : 0 ≤ o) : strideNat w o ≤ w := by
  have hw : (0 : ℚ) ≤ (w : ℚ) := by positivity
  have h1 : (w : ℚ) * (1 - o) ≤ (w : ℚ) := by nlinarith
  have h2 : pyRound ((w : ℚ) * (1 - o)) ≤ (w : ℤ) := by
    have hm : round ((w : ℚ) * (1 - o)) ≤ round ((w : ℚ) : ℚ) := by
      rw [round_eq, round_eq]
      exact Int.floor_le_floor (by linarith)
    rw [round_natCast] at hm
    simpa [pyRound] using hm
  have h3 := Int.toNat_le_toNat h2
  simpa [strideNat] using h3

/-- Arithmetic helper: the ceiling-style division used by `numSteps`
reaches `d` when multiplied back by the stride. -/
theorem le_ceil_div_mul (d s : Nat) (hs : 0 < s) :
    d ≤ ((d + (s - 1)) / s) * s := by
  obtain ⟨t, rfl⟩ : ∃ t, s = t + 1 := ⟨s - 1, by omega⟩
  have h := Nat.div_add_mod (d + t) (t + 1)
  have hr : (d + t) % (t + 1) < t + 1 := Nat.mod_lt _ (by omega)
  have hx : ((d + t) / (t + 1)) * (t + 1) = (t + 1) * ((d + t) / (t + 1)) :=
    Nat.mul_comm _ _
  simp only [Nat.add_sub_cancel]
  rw [hx]
  omega

/-- Arithmetic helper: a placement index strictly below the final one
has its unclamped start strictly inside the clamp bound. -/
theorem mul_lt_of_lt_ceil_div (d s j : Nat) (hs : 0 < s)
    (hj : j < (d + (s - 1)) / s) : j * s + 1 ≤ d := by
  obtain ⟨t, rfl⟩ : ∃ t, s = t + 1 := ⟨s - 1, by omega⟩
  simp only [Nat.add_sub_cancel] at hj
  have hb : ((d + t) / (t + 1)) * (t + 1) ≤ d + t := Nat.div_mul_le_self _ _
  have hm : (j + 1) * (t + 1) ≤ ((d + t) / (t + 1)) * (t + 1) :=
    Nat.mul_le_mul_right _ hj
  have hexp : (j + 1) * (t + 1) = j * (t + 1) + (t + 1) := by ring
  omega

/-- Ceiling property of `numSteps`: at the final placement index the
flush clamp is active. -/
theorem numSteps_mul_ge (n w s : Nat) (hs : 0 < s) :
    n - w ≤ (numSteps n w s - 1) * s := by
  simpa [numSteps] using le_ceil_div_mul (n - w) s hs

/-- The final placement on each axis is flush with the padded boundary. -/
theorem axisStarts_last_flush (n w s : Nat) (hs : 0 < s) (hw : w ≤ n)
    (i : Nat) (hlast : i = numSteps n w s - 1)
    (h : i < (axisStarts n w s).length) :
    (axisStarts n w s)[i] + w = n := by
  rw [axisStarts_getElem]
  have := numSteps_mul_ge n w s hs
  subst hlast
  omega

/-- Placements before the final one are spaced by exactly the stride. -/
theorem axisStarts_spacing (n w s : Nat) (hs : 0 < s)
    (i : Nat) (hi : i + 2 < numSteps n w s)
    (h1 : i < (axisStarts n w s).length) (h2 : i + 1 < (axisStarts n w s).length) :
    (axisStarts n w s)[i + 1] - (axisStarts n w s)[i] = s := by
  rw [axisStarts_getElem, axisStarts_getElem]
  have hi' : i + 1 < (n - w + (s - 1)) / s := by
    simp only [numSteps] at hi; omega
  have hle : (i + 1) * s + 1 ≤ n - w := mul_lt_of_lt_ceil_div (n - w) s (i + 1) hs hi'
  have hle' : i * s + 1 ≤ n - w :=
    mul_lt_of_lt_ceil_div (n - w) s i hs (by omega)
  rw [min_eq_left (by omega), min_eq_left (by omega)]
  have hexp : (i + 1) * s = i * s + s := by ring
  omega

/-- Every gap between consecutive placements is positive and at most the
stride. -/
theorem axisStarts_gap_le (n w s : Nat) (hs : 0 < s) (hw : w ≤ n)
    (i : Nat)
    (h1 : i < (axisStarts n w s).length) (h2 : i + 1 < (axisStarts n w s).length) :
    (axisStarts n w s)[i] < (axisStarts n w s)[i + 1] ∧
      (axisStarts n w s)[i + 1] - (axisStarts n w s)[i] ≤ s := by
  rw [axisStarts_getElem, axisStarts_getElem]
  have hlen : (axisStarts n w s).length = numSteps n w s := axisStarts_length n w s
  have hi' : i + 1 < numSteps n w s := by omega
  have hi'' : i < (n - w + (s - 1)) / s := by
    simp only [numSteps] at hi'; omega
  have hle' : i * s + 1 ≤ n - w := mul_lt_of_lt_ceil_div (n - w) s i hs hi''
  have hexp : (i + 1) * s = i * s + s := by ring
  rcases Nat.lt_or_ge ((i + 1) * s) (n - w) with hc | hc
  · rw [min_eq_left (by omega), min_eq_left (by omega)]
    omega
  · rw [min_eq_left (by omega), min_eq_right hc]
    omega

/-- Per-axis coverage: every coordinate of the padded extent lies inside
some placement. -/
theorem axisStarts_cover (n w s : Nat) (hs : 0 < s) (hsw : s ≤ w) (hw : w ≤ n)
    (p : Nat) (hp : p < n) :
    ∃ a ∈ axisStarts n w s, a ≤ p ∧ p < a + w := by
  rcases Nat.lt_or_ge p (n - w) with hlt | hge
  · refine ⟨min ((p / s) * s) (n - w), ?_, ?_, ?_⟩
    · apply List.mem_map_of_mem
      apply List.mem_range.mpr
      have h1 : p / s ≤ (n - w + (s - 1)) / s :=
        Nat.div_le_div_right (by omega)
      simp only [numSteps]; omega
    · have := Nat.div_mul_le_self p s
      omega
    · have hmod := Nat.div_add_mod p s
      have hltm : p % s < s := Nat.mod_lt _ hs
      have hds : (p / s) * s ≤ p := Nat.div_mul_le_self p s
      have hmin : min ((p / s) * s) (n - w) = (p / s) * s := by
        apply min_eq_left; omega
      have hcomm : s * (p / s) = (p / s) * s := Nat.mul_comm _ _
      omega
  · refine ⟨min ((numSteps n w s - 1) * s) (n - w), ?_, ?_, ?_⟩
    · apply List.mem_map_of_mem
      apply List.mem_range.mpr
      have := numSteps_pos n w s
      omega
    · have := numSteps_mul_ge n w s hs
      omega
    · have := numSteps_mul_ge n w s hs
      omega

/-- Zoom scale between one output head and the window, line 164 of the
source: `_scale = out_w_i / float(in_w_i)` (exact-rational reading). -/
def zoomScale (outW inW : Nat) : ℚ := (outW : ℚ) / (inW : ℚ)

/-- Remapping of one coordinate into accumulator space: the source
multiplies by the zoom scale and truncates with Python `int`
(`int(zoomed_start)` on line 208, `int(image_size_d * zoom_scale_d)` on
line 176). -/
def zStart (q : ℚ) (x : Nat) : Nat := (pyInt ((x : ℚ) * q)).toNat

/-- The pair of remapped bounds of one placement, lines 193-208 of the
source. -/
def zoomBounds (q : ℚ) (start stop : Nat) : Nat × Nat :=
  (zStart q start, zStart q stop)

/-- Whether the non-integer-boundary diagnostic of lines 198-206 fires
for one placement: the zoomed bounds are tested with `is_integer`. -/
def zoomWarns (q : ℚ) (start stop : Nat) : Bool :=
  !ratIsInt ((start : ℚ) * q) || !ratIsInt ((stop : ℚ) * q)

theorem zStart_mono (q : ℚ) (hq : 0 ≤ q) (a b : Nat) (h : a ≤ b) :
    zStart q a ≤ zStart q b := by
  unfold zStart pyInt
  apply Int.toNat_le_toNat
  apply Int.floor_le_floor
  have hab : (a : ℚ) ≤ (b : ℚ) := by exact_mod_cast h
  nlinarith

theorem zStart_zero (q : ℚ) : zStart q 0 = 0 := by
  simp [zStart, pyInt]

/-- Chained intervals cover their hull: if each interval starts no later
than the previous interval's end, every point between the image of the
first start and the image of the last end lies in some image interval. -/
theorem chained_cover (w : Nat) (f : Nat → Nat)
    (hmono : ∀ a b : Nat, a ≤ b → f a ≤ f b) :
    ∀ (l : List Nat) (x P z : Nat),
      List.Chain' (fun a b : Nat => b ≤ a + w) (x :: l) →
      (x :: l).getLast (List.cons_ne_nil x l) = z →
      f x ≤ P → P < f (z + w) →
      ∃ a ∈ x :: l, f a ≤ P ∧ P < f (a + w) := by
  intro l
  induction l with
  | nil =>
      intro x P z _ hlast h1 h2
      refine ⟨x, by simp, h1, ?_⟩
      simp only [List.getLast_singleton] at hlast
      rw [hlast]; exact h2
  | cons y rest ih =>
      intro x P z hchain hlast h1 h2
      rcases Nat.lt_or_ge P (f (x + w)) with hc | hc
      · exact ⟨x, by simp, h1, hc⟩
      · have hyx : y ≤ x + w := (List.chain'_cons.mp hchain).1
        have hchain' := (List.chain'_cons.mp hchain).2
        have h1' : f y ≤ P := le_trans (hmono _ _ hyx) hc
        have hlast' : (y :: rest).getLast (List.cons_ne_nil y rest) = z := by
          rw [← hlast]
          exact (List.getLast_cons (List.cons_ne_nil y rest)).symm
        obtain ⟨a, ha, hcov⟩ := ih y P z hchain' hlast' h1' h2
        exact ⟨a, List.mem_cons_of_mem x ha, hcov⟩

/-- The placement starts form a chain: each placement begins no later
than the previous placement's end. -/
theorem axisStarts_chain (n w s : Nat) (hsw : s ≤ w) :
    List.Chain' (fun a b : Nat => b ≤ a + w) (axisStarts n w s) := by
  rw [List.chain'_iff_get]
  intro i hilen
  have hlen : (axisStarts n w s).length = numSteps n w s := axisStarts_length n w s
  have h1 : i < (axisStarts n w s).length := by omega
  have h2 : i + 1 < (axisStarts n w s).length := by omega
  rw [List.get_eq_getElem, List.get_eq_getElem]
  rw [axisStarts_getElem n w s i h1, axisStarts_getElem n w s (i + 1) h2]
  have e1 : (i + 1) * s = i * s + s := by ring
  rw [e1]
  generalize i * s = A
  omega

theorem axisStarts_ne_nil (n w s : Nat) : axisStarts n w s ≠ [] := by
  have h := axisStarts_length n w s
  have h2 := numSteps_pos n w s
  intro hcon
  rw [hcon] at h
  simp at h
  omega

theorem axisStarts_head_zero (n w s : Nat) :
    (axisStarts n w s).head? = some 0 := by
  have h0 : 0 < (axisStarts n w s).length := by
    rw [axisStarts_length]; exact numSteps_pos n w s
  rw [List.head?_eq_getElem?, List.getElem?_eq_getElem h0, axisStarts_getElem]
  simp

theorem axisStarts_getLast_eq (n w s : Nat) (hs : 0 < s) :
    (axisStarts n w s).getLast? = some (n - w) := by
  have hlen := axisStarts_length n w s
  have hpos := numSteps_pos n w s
  have h1 : (axisStarts n w s).length - 1 < (axisStarts n w s).length := by omega
  rw [List.getLast?_eq_getElem?, List.getElem?_eq_getElem h1, axisStarts_getElem]
  rw [hlen]
  exact congrArg some (min_eq_right (numSteps_mul_ge n w s hs))

/-- Coverage survives the zoom remapping: every accumulator-space
coordinate below the remapped padded extent lies inside the remapped
bounds of some placement (truncation can never open a gap because the
remapping is monotone and the native placements chain). -/
theorem zoom_cover (n w s : Nat) (q : ℚ) (hq : 0 ≤ q) (hs : 0 < s)
    (hsw : s ≤ w) (hw : w ≤ n) (P : Nat) (hP : P < zStart q n) :
    ∃ a ∈ axisStarts n w s, zStart q a ≤ P ∧ P < zStart q (a + w) := by
  obtain ⟨x, l, hxl⟩ : ∃ x l, axisStarts n w s = x :: l := by
    cases hEq : axisStarts n w s with
    | nil => exact absurd hEq (axisStarts_ne_nil n w s)
    | cons x l => exact ⟨x, l, rfl⟩
  have hx0 : x = 0 := by
    have h := axisStarts_head_zero n w s
    rw [hxl] at h
    simpa using h
  have hchain : List.Chain' (fun a b : Nat => b ≤ a + w) (x :: l) := by
    rw [← hxl]; exact axisStarts_chain n w s hsw
  have hlast : (x :: l).getLast (List.cons_ne_nil x l) = n - w := by
    have h := axisStarts_getLast_eq n w s hs
    rw [hxl, List.getLast?_eq_getLast _ (List.cons_ne_nil x l)] at h
    exact Option.some_injective _ h
  have h1 : zStart q x ≤ P := by
    rw [hx0, zStart_zero]; omega
  have h2 : P < zStart q (n - w + w) := by
    have : n - w + w = n := by omega
    rw [this]; exact hP
  have := chained_cover w (zStart q) (fun a b hab => zStart_mono q hq a b hab)
    l x P (n - w) hchain hlast h1 h2
  rw [hxl]
  exact this

/-- Floor clamp applied to the importance map on lines 88-91 of the
source: `min_non_zero = max(min of the nonzero entries, 1e-3)` followed
by `torch.clamp(importance_map, min=min_non_zero)`. -/
def minNonZero (minEntry : ℚ) : ℚ := max minEntry (1 / 1000)

/-- The clamped importance map: every entry is raised to at least the
floor `minNonZero`. -/
def clampedImportance (imp : Nat → Nat → ℚ) (minEntry : ℚ) : Nat → Nat → ℚ :=
  fun i j => max (imp i j) (minNonZero minEntry)

theorem clampedImportance_ge (imp : Nat → Nat → ℚ) (minEntry : ℚ) (i j : Nat) :
    1 / 1000 ≤ clampedImportance imp minEntry i j :=
  le_trans (le_max_right _ _) (le_max_of_le_right (le_refl _))

/-- Nearest-neighbour index map of `Resize(mode="nearest")`: output
index `i` of an axis resized from `src` to `dst` samples source index
`floor(i * src / dst)`. -/
def nearestIdx (src dst i : Nat) : Nat := i * src / dst

/-- The importance map resized to one head's prediction resolution
(lines 186-187 and 209-210 of the source): nearest-neighbour sampling of
the window-resolution map. -/
def resizedImp (imp : Nat → Nat → ℚ) (src0 src1 dst0 dst1 i j : Nat) : ℚ :=
  imp (nearestIdx src0 dst0 i) (nearestIdx src1 dst1 j)

/-- One head's count-accumulator value at output position `(x, y)` after
all windows of one image have been accumulated (lines 190-217 of the
source): the zoom-resized importance value is added over the remapped
bounds of every placement. -/
def countAt (n0 n1 w0 w1 s0 s1 outW0 outW1 : Nat) (imp : Nat → Nat → ℚ)
    (x y : Nat) : ℚ :=
  (((axisStarts n0 w0 s0).product (axisStarts n1 w1 s1)).map (fun ab =>
    if zStart (zoomScale outW0 w0) ab.1 ≤ x ∧
       x < zStart (zoomScale outW0 w0) (ab.1 + w0) ∧
       zStart (zoomScale outW1 w1) ab.2 ≤ y ∧
       y < zStart (zoomScale outW1 w1) (ab.2 + w1) then
      resizedImp imp w0 w1 outW0 outW1
        (x - zStart (zoomScale outW0 w0) ab.1)
        (y - zStart (zoomScale outW1 w1) ab.2)
    else 0)).sum

theorem sum_map_pos {α : Type} (l : List α) (f : α → ℚ) (a : α) (ha : a ∈ l)
    (hnn : ∀ x ∈ l, 0 ≤ f x) (hpos : 0 < f a) : 0 < (l.map f).sum := by
  have h1 : f a ≤ (l.map f).sum := by
    apply List.single_le_sum
    · intro v hv
      obtain ⟨x, hx, rfl⟩ := List.mem_map.mp hv
      exact hnn x hx
    · exact List.mem_map_of_mem f ha
  linarith

/-- The accumulated count is strictly positive at every output position
inside the remapped padded extent, for any importance map bounded below
by a positive constant. -/
theorem countAt_pos (n0 n1 w0 w1 s0 s1 outW0 outW1 : Nat)
    (imp : Nat → Nat → ℚ) (c : ℚ) (hc : 0 < c) (himp : ∀ i j, c ≤ imp i j)
    (hs0 : 0 < s0) (hsw0 : s0 ≤ w0) (hw0 : w0 ≤ n0)
    (hs1 : 0 < s1) (hsw1 : s1 ≤ w1) (hw1 : w1 ≤ n1)
    (x y : Nat)
    (hx : x < zStart (zoomScale outW0 w0) n0)
    (hy : y < zStart (zoomScale outW1 w1) n1) :
    0 < countAt n0 n1 w0 w1 s0 s1 outW0 outW1 imp x y := by
  have hq0 : (0 : ℚ) ≤ zoomScale outW0 w0 := by unfold zoomScale; positivity
  have hq1 : (0 : ℚ) ≤ zoomScale outW1 w1 := by unfold zoomScale; positivity
  obtain ⟨a, ha, hax1, hax2⟩ := zoom_cover n0 w0 s0 _ hq0 hs0 hsw0 hw0 x hx
  obtain ⟨b, hb, hby1, hby2⟩ := zoom_cover n1 w1 s1 _ hq1 hs1 hsw1 hw1 y hy
  have hmem : (a, b) ∈ (axisStarts n0 w0 s0).product (axisStarts n1 w1 s1) := by
    have h : (a, b) ∈ (axisStarts n0 w0 s0) ×ˢ (axisStarts n1 w1 s1) :=
      List.mem_product.mpr ⟨ha, hb⟩
    exact h
  unfold countAt
  apply sum_map_pos _ _ (a, b) hmem
  · intro v _
    dsimp only
    split
    · exact le_trans hc.le (himp _ _)
    · exact le_refl 0
  · dsimp only
    rw [if_pos ⟨hax1, hax2, hby1, hby2⟩]
    exact lt_of_lt_of_le hc (himp _ _)

/-- C3: the claim that consecutive placements are always spaced by the
stride fails: with image axis 5, window 4 and overlap 1/2 the stride is
2 but the planner produces placements 0 and 1 (the final placement is
clamped flush with the boundary, shrinking its gap to 1). -/
theorem C3_counterexample :
    strideNat 4 (1 / 2) = 2 ∧
      axisStarts 5 4 (strideNat 4 (1 / 2)) = [0, 1] ∧
      1 - 0 ≠ strideNat 4 (1 / 2) := by
  have h : strideNat 4 (1 / 2) = 2 := by
    norm_num [strideNat, pyRound, round_eq] <;> decide
  refine ⟨h, ?_, ?_⟩ <;> rw [h] <;> decide

/-- C3 (amended): consecutive placements are spaced by the stride
`round(window_size * (1 - o))` on each axis except for the final
placement, whose gap from its predecessor is positive and at most the
stride because it is clamped flush with the padded boundary; the
placements leave no coordinate of the padded extent uncovered. -/
theorem C3_spacing_flush (n w : Nat) (o : ℚ) (ho : 0 ≤ o)
    (hs : 0 < strideNat w o) (hw : w ≤ n) :
    (∀ i (h1 : i < (axisStarts n w (strideNat w o)).length)
        (h2 : i + 1 < (axisStarts n w (strideNat w o)).length),
        (i + 2 < numSteps n w (strideNat w o) →
          (axisStarts n w (strideNat w o))[i + 1] -
            (axisStarts n w (strideNat w o))[i] = strideNat w o) ∧
        (axisStarts n w (strideNat w o))[i] <
          (axisStarts n w (strideNat w o))[i + 1] ∧
        (axisStarts n w (strideNat w o))[i + 1] -
          (axisStarts n w (strideNat w o))[i] ≤ strideNat w o) ∧
    (∀ i (h : i < (axisStarts n w (strideNat w o)).length),
        i = numSteps n w (strideNat w o) - 1 →
        (axisStarts n w (strideNat w o))[i] + w = n) ∧
    (∀ p, p < n → ∃ a ∈ axisStarts n w (strideNat w o), a ≤ p ∧ p < a + w) := by
  refine ⟨?_, ?_, ?_⟩
  · intro i h1 h2
    exact ⟨fun hlt => axisStarts_spacing n w _ hs i hlt h1 h2,
      (axisStarts_gap_le n w _ hs hw i h1 h2).1,
      (axisStarts_gap_le n w _ hs hw i h1 h2).2⟩
  · intro i h hlast
    exact axisStarts_last_flush n w _ hs hw i hlast h
  · intro p hp
    exact axisStarts_cover n w _ hs (strideNat_le w o ho) hw p hp

theorem C3_spacing_flush_witness :
    ((0 : ℚ) ≤ 1 / 2 ∧ 0 < strideNat 4 (1 / 2) ∧ 4 ≤ 6) ∧
    ((∀ i (h1 : i < (axisStarts 6 4 (strideNat 4 (1 / 2))).length)
        (h2 : i + 1 < (axisStarts 6 4 (strideNat 4 (1 / 2))).length),
        (i + 2 < numSteps 6 4 (strideNat 4 (1 / 2)) →
          (axisStarts 6 4 (strideNat 4 (1 / 2)))[i + 1] -
            (axisStarts 6 4 (strideNat 4 (1 / 2)))[i] = strideNat 4 (1 / 2)) ∧
        (axisStarts 6 4 (strideNat 4 (1 / 2)))[i] <
          (axisStarts 6 4 (strideNat 4 (1 / 2)))[i + 1] ∧
        (axisStarts 6 4 (strideNat 4 (1 / 2)))[i + 1] -
          (axisStarts 6 4 (strideNat 4 (1 / 2)))[i] ≤ strideNat 4 (1 / 2)) ∧
    (∀ i (h : i < (axisStarts 6 4 (strideNat 4 (1 / 2))).length),
        i = numSteps 6 4 (strideNat 4 (1 / 2)) - 1 →
        (axisStarts 6 4 (strideNat 4 (1 / 2)))[i] + 4 = 6) ∧
    (∀ p, p < 6 →
        ∃ a ∈ axisStarts 6 4 (strideNat 4 (1 / 2)), a ≤ p ∧ p < a + 4)) :=
  ⟨⟨by norm_num, by norm_num [strideNat, pyRound, round_eq] <;> decide, by decide⟩,
    C3_spacing_flush 6 4 (1 / 2) (by norm_num)
      (by norm_num [strideNat, pyRound, round_eq] <;> decide) (by decide)⟩

/-- C5: after all windows are accumulated, the count accumulator of a
head is strictly positive at every output location of the remapped
padded extent — the placements cover the whole padded image, coverage
survives the zoom remapping, and the clamp of lines 88-91 floors every
importance value at `1e-3` — so the element-wise division of line 222
never divides by zero. -/
theorem C5_count_positive (n0 n1 w0 w1 outW0 outW1 : Nat) (o : ℚ)
    (imp : Nat → Nat → ℚ) (minEntry : ℚ) (ho : 0 ≤ o)
    (hs0 : 0 < strideNat w0 o) (hw0 : w0 ≤ n0)
    (hs1 : 0 < strideNat w1 o) (hw1 : w1 ≤ n1)
    (x y : Nat)
    (hx : x < zStart (zoomScale outW0 w0) n0)
    (hy : y < zStart (zoomScale outW1 w1) n1) :
    0 < countAt n0 n1 w0 w1 (strideNat w0 o) (strideNat w1 o) outW0 outW1
        (clampedImportance imp minEntry) x y ∧
      countAt n0 n1 w0 w1 (strideNat w0 o) (strideNat w1 o) outW0 outW1
        (clampedImportance imp minEntry) x y ≠ 0 := by
  have h := countAt_pos n0 n1 w0 w1 (strideNat w0 o) (strideNat w1 o) outW0 outW1
    (clampedImportance imp minEntry) (1 / 1000) (by norm_num)
    (clampedImportance_ge imp minEntry)
    hs0 (strideNat_le w0 o ho) hw0 hs1 (strideNat_le w1 o ho) hw1 x y hx hy
  exact ⟨h, h.ne'⟩

theorem C5_count_positive_witness :
    ((0 : ℚ) ≤ 1 / 2 ∧ 0 < strideNat 4 (1 / 2) ∧ 4 ≤ 6 ∧
      (2 : Nat) < zStart (zoomScale 2 4) 6) ∧
    (0 < countAt 6 6 4 4 (strideNat 4 (1 / 2)) (strideNat 4 (1 / 2)) 2 2
        (clampedImportance (fun _ _ => 0) 0) 2 2 ∧
      countAt 6 6 4 4 (strideNat 4 (1 / 2)) (strideNat 4 (1 / 2)) 2 2
        (clampedImportance (fun _ _ => 0) 0) 2 2 ≠ 0) :=
  ⟨⟨by norm_num, by norm_num [strideNat, pyRound, round_eq] <;> decide, by decide,
      by norm_num [zStart, zoomScale, pyInt] <;> decide⟩,
    C5_count_positive 6 6 4 4 2 2 (1 / 2) (fun _ _ => 0) 0
      (by norm_num)
      (by norm_num [strideNat, pyRound, round_eq] <;> decide) (by decide)
      (by norm_num [strideNat, pyRound, round_eq] <;> decide) (by decide)
      2 2 (by norm_num [zStart, zoomScale, pyInt] <;> decide)
      (by norm_num [zStart, zoomScale, pyInt] <;> decide)⟩

/-- C6: the claim that remapped placement coordinates are rounded to the
nearest integer fails: at zoom scale 3/4, the placement `[1, 5)` is
remapped to `[0, 3)` by Python `int` truncation, while nearest-integer
rounding would give `[1, 4)`; the non-integer-boundary warning does
fire for this placement. -/
theorem C6_counterexample :
    zoomBounds (3 / 4) 1 5 = (0, 3) ∧
      pyRound ((1 : ℚ) * (3 / 4)) = 1 ∧ pyRound ((5 : ℚ) * (3 / 4)) = 4 ∧
      zoomWarns (3 / 4) 1 5 = true := by
  refine ⟨?_, ?_, ?_, ?_⟩
  · have h1 : zStart (3 / 4) 1 = 0 := by norm_num [zStart, pyInt] <;> decide
    have h2 : zStart (3 / 4) 5 = 3 := by norm_num [zStart, pyInt] <;> decide
    rw [zoomBounds, h1, h2]
  · norm_num [pyRound, round_eq]
  · norm_num [pyRound, round_eq]
  · norm_num [zoomWarns, ratIsInt]

theorem zStart_cast (q : ℚ) (x : Nat) (hq : 0 ≤ q) :
    ((zStart q x : Nat) : ℚ) = (⌊(x : ℚ) * q⌋ : ℚ) := by
  have hnn : (0 : ℚ) ≤ (x : ℚ) * q := by positivity
  have hge : (0 : ℤ) ≤ ⌊(x : ℚ) * q⌋ := Int.floor_nonneg.mpr hnn
  calc ((zStart q x : Nat) : ℚ)
      = (((⌊(x : ℚ) * q⌋.toNat : Nat) : ℤ) : ℚ) := by norm_cast
    _ = ((⌊(x : ℚ) * q⌋ : ℤ) : ℚ) := by rw [Int.toNat_of_nonneg hge]

theorem zStart_exact (q : ℚ) (x : Nat) (hq : 0 ≤ q)
    (h : ((x : ℚ) * q).den = 1) : ((zStart q x : Nat) : ℚ) = (x : ℚ) * q := by
  rw [zStart_cast q x hq]
  have hr := (Rat.den_eq_one_iff _).mp h
  have hfl : ⌊(x : ℚ) * q⌋ = ((x : ℚ) * q).num := by
    conv_lhs => rw [← hr]
    exact Int.floor_intCast _
  rw [hfl]
  exact hr

theorem zStart_floor_bounds (q : ℚ) (x : Nat) (hq : 0 ≤ q) :
    ((zStart q x : Nat) : ℚ) ≤ (x : ℚ) * q ∧
      (x : ℚ) * q < ((zStart q x : Nat) : ℚ) + 1 := by
  rw [zStart_cast q x hq]
  exact ⟨Int.floor_le _, Int.lt_floor_add_one _⟩

/-- C6 (amended): the accumulator remaps each placement's start and stop
by multiplying by the zoom scale and truncating toward zero (the floor,
on these nonnegative coordinates) — not by rounding to nearest; the
non-fatal warning fires exactly when a remapped bound is not an integer,
and when no warning fires the truncated bounds equal the exact zoomed
coordinates, which always lie within one unit above the truncated
value. -/
theorem C6_truncated_bounds (q : ℚ) (start stop : Nat) (hq : 0 ≤ q) :
    zoomBounds q start stop =
      ((⌊(start : ℚ) * q⌋).toNat, (⌊(stop : ℚ) * q⌋).toNat) ∧
    (zoomWarns q start stop = false ↔
      ((start : ℚ) * q).den = 1 ∧ ((stop : ℚ) * q).den = 1) ∧
    (zoomWarns q start stop = false →
      (((zoomBounds q start stop).1 : ℚ) = (start : ℚ) * q ∧
        ((zoomBounds q start stop).2 : ℚ) = (stop : ℚ) * q)) ∧
    ((zoomBounds q start stop).1 : ℚ) ≤ (start : ℚ) * q ∧
    (start : ℚ) * q < ((zoomBounds q start stop).1 : ℚ) + 1 := by
  have hiff : zoomWarns q start stop = false ↔
      ((start : ℚ) * q).den = 1 ∧ ((stop : ℚ) * q).den = 1 := by
    unfold zoomWarns ratIsInt
    simp [Bool.or_eq_false_iff]
  refine ⟨rfl, hiff, ?_, ?_, ?_⟩
  · intro h
    obtain ⟨h1, h2⟩ := hiff.mp h
    exact ⟨zStart_exact q start hq h1, zStart_exact q stop hq h2⟩
  · exact (zStart_floor_bounds q start hq).1
  · exact (zStart_floor_bounds q start hq).2

theorem C6_truncated_bounds_witness :
    ((0 : ℚ) ≤ 3 / 4) ∧
    (zoomBounds (3 / 4) 1 5 =
        ((⌊((1 : Nat) : ℚ) * (3 / 4)⌋).toNat, (⌊((5 : Nat) : ℚ) * (3 / 4)⌋).toNat) ∧
      (zoomWarns (3 / 4) 1 5 = false ↔
        (((1 : Nat) : ℚ) * (3 / 4)).den = 1 ∧ (((5 : Nat) : ℚ) * (3 / 4)).den = 1) ∧
      (zoomWarns (3 / 4) 1 5 = false →
        (((zoomBounds (3 / 4) 1 5).1 : ℚ) = ((1 : Nat) : ℚ) * (3 / 4) ∧
          ((zoomBounds (3 / 4) 1 5).2 : ℚ) = ((5 : Nat) : ℚ) * (3 / 4))) ∧
      ((zoomBounds (3 / 4) 1 5).1 : ℚ) ≤ ((1 : Nat) : ℚ) * (3 / 4) ∧
      ((1 : Nat) : ℚ) * (3 / 4) < ((zoomBounds (3 / 4) 1 5).1 : ℚ) + 1) :=
  ⟨by norm_num, C6_truncated_bounds (3 / 4) 1 5 (by norm_num)⟩

/-- Shape-level model of a tensor as the engine manipulates it: batch,
channels, the two spatial extents (`shape[2]` and `shape[3]`), and
whether the tensor is a `MetaTensor` carrying metadata.  The claims
below depend only on shapes, invocation counts and error behaviour, so
values are not modelled here (the weight accumulation is modelled at
value level by `countAt` above). -/
structure Tensor where
  batch : Nat
  channels : Nat
  s0 : Nat
  s1 : Nat
  isMeta : Bool
deriving DecidableEq

/-- The three forms a predictor may return (line 21 of the source): a
single tensor, an ordered sequence, or a named mapping. -/
inductive PredOut where
  | tensor : Tensor → PredOut
  | seq : List Tensor → PredOut
  | mapping : List (String × Tensor) → PredOut
deriving DecidableEq

/-- A predictor: the source treats it as an arbitrary callable, which
may be stateful, so the model indexes it by the invocation number. -/
abbrev Predictor : Type := Nat → Tensor → PredOut

/-- Shape effect of `functional.interpolate(t, size, mode="bicubic")`:
the spatial extents become `size`. -/
def interpolate (t : Tensor) (size : Nat × Nat) : Tensor :=
  { t with s0 := size.1, s1 := size.2 }

/-- Lines 127-133 of the source apply `functional.interpolate` to the
raw predictor output `seg_prob_out` before its type is inspected;
`torch.nn.functional.interpolate` accepts only a tensor, so a sequence
or mapping output raises `TypeError` at this point. -/
def interpolateOut (out : PredOut) (size : Nat × Nat) : Except String PredOut :=
  match out with
  | .tensor t => .ok (.tensor (interpolate t size))
  | _ => .error "TypeError: interpolate expects a Tensor, not a sequence or mapping"

/-- `fall_back_tuple(roi_size, image_size)` (monai helper, used on line
54): non-positive entries fall back to the image size. -/
def fallBackTuple (roi img : Nat × Nat) : Nat × Nat :=
  (if roi.1 = 0 then img.1 else roi.1, if roi.2 = 0 then img.2 else roi.2)

/-- `get_valid_patch_size(image_size, patch_size)` (monai helper, used
on line 75): the elementwise minimum, a zero patch entry falling back to
the image entry. -/
def getValidPatchSize (img roi : Nat × Nat) : Nat × Nat :=
  (min img.1 (if roi.1 = 0 then img.1 else roi.1),
   min img.2 (if roi.2 = 0 then img.2 else roi.2))

/-- Line 76 of the source: the caller-supplied `roi_weight_map` is used
in place of recomputation when `valid_patch_size == roi_size` and the
map is present; the shape of the supplied map itself is never read. -/
def usesRoiWeightMap (img roi : Nat × Nat) (m : Option (Nat × Nat)) : Bool :=
  (getValidPatchSize img roi == roi) && m.isSome

/-- Per-axis padding amounts of lines 59-62: `diff = max(roi - size, 0)`
then `half = diff // 2`, giving the pair `(half, diff - half)`. -/
def padPair (roiS imgS : Nat) : Nat × Nat :=
  ((roiS - imgS) / 2, (roiS - imgS) - (roiS - imgS) / 2)

/-- Accumulator bookkeeping for one output head: the channel count and
the accumulator spatial extents `int(image_size_d * zoom_scale_d)` of
lines 172-183. -/
structure HeadState where
  channels : Nat
  outS0 : Nat
  outS1 : Nat
deriving DecidableEq

/-- State threaded through the batch loop: `dict_key` (fixed by the
first mapping-valued batch), the `is_tensor_output` flag, the
initialised heads, and the number of predictor invocations so far. -/
structure LoopState where
  dictKey : Option (List String)
  isTensorOutput : Bool
  heads : List HeadState
  calls : Nat
deriving DecidableEq

/-- Reading `tuple(seg_prob_out[k] for k in dict_key)` (line 149): each
tracked key is looked up in turn and a missing key raises `KeyError`;
keys of the mapping that are not tracked are never consulted. -/
def lookupAll (m : List (String × Tensor)) : List String → Except String (List Tensor)
  | [] => .ok []
  | k :: ks =>
      match m.lookup k with
      | some t => (lookupAll m ks).map (fun ts => t :: ts)
      | none => .error ("KeyError: " ++ k)

/-- Lines 141-153 of the source: normalise the (already resized) output
to a tuple.  A tensor passes through; a mapping fixes `dict_key` to its
sorted keys on first sight and is read through `lookupAll` afterwards; a
sequence is taken as is.  The mapping and sequence cases clear
`is_tensor_output`. -/
def dispatch (dictKey : Option (List String)) (isTensor : Bool) (out : PredOut) :
    Except String (Option (List String) × Bool × List Tensor) :=
  match out with
  | .tensor t => .ok (dictKey, isTensor, [t])
  | .mapping m =>
      let ks := match dictKey with
        | none => (m.map Prod.fst).mergeSort (fun a b => decide (a ≤ b))
        | some ks => ks
      (lookupAll m ks).map (fun ts => (some ks, false, ts))
  | .seq ts => .ok (dictKey, false, ts)

/-- Lines 160-183 of the source: the zoom scale of a head is the ratio
of the prediction's spatial extent to the (resized-back) window's, and a
head seen for the first time gets accumulator extents
`int(image_size_d * zoom_scale_d)`. -/
def updateHeads (heads : List HeadState) (preds : List Tensor) (wd : Tensor)
    (imageSize : Nat × Nat) : List HeadState :=
  heads ++ (preds.drop heads.length).map (fun t =>
    ⟨t.channels,
      zStart (zoomScale t.s0 wd.s0) imageSize.1,
      zStart (zoomScale t.s1 wd.s1) imageSize.2⟩)

/-- The patch-shape assertions of lines 114-115: the extracted patch has
spatial shape `(roi_size[0], roi_size[1])` but is checked against the
reversed pair: `shape[2] == roi_size[1]` and `shape[3] == roi_size[0]`. -/
def windowAsserts (windowData : Tensor) (roi : Nat × Nat) : Except String Unit :=
  if windowData.s0 ≠ roi.2 then
    .error "AssertionError: window_data.shape[2] == roi_size[1]"
  else if windowData.s1 ≠ roi.1 then
    .error "AssertionError: window_data.shape[3] == roi_size[0]"
  else .ok ()

/-- One iteration of the batch loop of lines 100-217, at shape level:
extract and concatenate the group's patches, run the assertions, resize
to the predictor resolution if needed, invoke the predictor, resize the
output back to the window resolution if needed, normalise it to a tuple
and update the head bookkeeping. -/
def runGroup (roi inputSize imageSize : Nat × Nat) (channels total swb : Nat)
    (pred : Predictor) (st : LoopState) (g : Nat) : Except String LoopState :=
  let gsize := min (g + swb) total - g
  let windowData : Tensor := ⟨gsize, channels, roi.1, roi.2, false⟩
  match windowAsserts windowData roi with
  | .error e => .error e
  | .ok _ =>
    let wd1 := if windowData.s0 ≠ inputSize.2 ∨ windowData.s1 ≠ inputSize.1 then
        interpolate windowData inputSize else windowData
    let out0 := pred st.calls wd1
    let back : Except String (PredOut × Tensor) :=
      if roi.1 ≠ inputSize.1 ∨ roi.2 ≠ inputSize.2 then
        (interpolateOut out0 roi).map (fun o => (o, interpolate wd1 roi))
      else .ok (out0, wd1)
    match back with
    | .error e => .error e
    | .ok (out1, wd2) =>
      (dispatch st.dictKey st.isTensorOutput out1).map (fun r =>
        ⟨r.1, r.2.1, updateHeads st.heads r.2.2 wd2 imageSize, st.calls + 1⟩)

/-- The group offsets of `range(0, total_slices, sw_batch_size)`. -/
def groupOffsets (total swb : Nat) : List Nat :=
  (List.range ((total + swb - 1) / swb)).map (fun i => i * swb)

/-- Python slice clamping: the length of `l[start:stop]` on an axis of
extent `dim`. -/
def sliceLen (start stop dim : Nat) : Nat := min stop dim - min start dim

/-- Lines 230-247 of the source: the finalizer recomputes a per-head
zoom scale from the accumulator and window extents, remaps the unpadded
extent through `int(round(...))`, and slices the head accordingly (the
source builds `final_slicing` in reversed axis order and re-reverses it
by inserting at the front; the net effect per axis is modelled). -/
def finalHeadShape (head : HeadState) (roi imgSz padL : Nat × Nat) : Nat × Nat :=
  (sliceLen ((pyRound ((padL.1 : ℚ) * zoomScale head.outS0 roi.1)).toNat)
      ((pyRound (((imgSz.1 + padL.1 : Nat) : ℚ) * zoomScale head.outS0 roi.1)).toNat)
      head.outS0,
   sliceLen ((pyRound ((padL.2 : ℚ) * zoomScale head.outS1 roi.2)).toNat)
      ((pyRound (((imgSz.2 + padL.2 : Nat) : ℚ) * zoomScale head.outS1 roi.2)).toNat)
      head.outS1)

/-- The container shapes the engine can return (lines 249-253). -/
inductive SWOutput where
  | tensor : Tensor → SWOutput
  | seq : List Tensor → SWOutput
  | mapping : List (String × Tensor) → SWOutput
deriving DecidableEq

/-- Result of one call: the returned container and how many times the
predictor was invoked. -/
structure SWResult where
  output : SWOutput
  predictorCalls : Nat
deriving DecidableEq

/-- Names imported at module level by `mlpipeline/samplers/inferer.py`
(lines 1-13 of the source). -/
def infererImportedNames : List String :=
  ["List", "Dict", "Tuple", "Union", "Sequence", "Callable", "Mapping", "Any",
   "warnings", "tqdm", "torch", "functional", "monai", "MetaTensor", "Resize",
   "BlendMode", "PytorchPadMode", "ensure_tuple", "fall_back_tuple",
   "look_up_option", "compute_importance_map", "_get_scan_interval",
   "convert_data_type", "dense_patch_slices", "get_valid_patch_size"]

/-- Line 256 of the source calls `convert_to_dst_type`, which resolves
only if that name is in the module's global scope. -/
def convertToDstTypeInScope : Bool :=
  infererImportedNames.contains "convert_to_dst_type"

/-- Lines 219-258 of the source at shape level: normalise (division by
the count map keeps the accumulator shape), strip padding through the
recomputed zoom, rebuild the container the predictor used, and attach
metadata for a `MetaTensor` input — the last step resolves the name
`convert_to_dst_type`, raising `NameError` if it is not in scope. -/
def finalizeOutputs (st : LoopState) (batch : Nat) (roi imgSz padL : Nat × Nat)
    (isMeta : Bool) : Except String SWOutput :=
  let outs : List Tensor := st.heads.map (fun h =>
    ⟨batch, h.channels, (finalHeadShape h roi imgSz padL).1,
      (finalHeadShape h roi imgSz padL).2, false⟩)
  let container : SWOutput :=
    match st.dictKey with
    | some ks => .mapping (ks.zip outs)
    | none => .seq outs
  let final : Except String SWOutput :=
    if st.isTensorOutput then
      match container with
      | .seq [] => .error "IndexError: tuple index out of range"
      | .seq (o :: _) => .ok (.tensor o)
      | .mapping _ => .error "KeyError: 0"
      | .tensor t => .ok (.tensor t)
    else .ok container
  match final with
  | .error e => .error e
  | .ok f =>
      if isMeta then
        if convertToDstTypeInScope then .ok f
        else .error "NameError: name convert_to_dst_type is not defined"
      else .ok f

/-- Shape-and-control-flow model of `sliding_window_inference`
(lines 16-258 of the source) for 2D inputs: overlap validation, window
fallback, padding, scan planning, the batch loop and finalization.
Device placement, the progress flag and the importance-map values have
no effect on shapes, invocation counts or errors and are omitted; the
scan stride and placement enumeration follow the spec model above
(`strideNat`, `numSteps`), as the source imports them from `monai`. -/
def slidingWindowInference (inputs : Tensor) (roiSizeArg inputSize : Nat × Nat)
    (swBatchSize : Nat) (pred : Predictor) (overlap : ℚ)
    (roiWeightMap : Option (Nat × Nat)) : Except String SWResult :=
  if overlap < 0 ∨ 1 ≤ overlap then
    .error "ValueError: overlap must be >= 0 and < 1."
  else
    let imgSz := (inputs.s0, inputs.s1)
    let roi := fallBackTuple roiSizeArg imgSz
    let imageSize := (max imgSz.1 roi.1, max imgSz.2 roi.2)
    let padL := ((padPair roi.1 imgSz.1).1, (padPair roi.2 imgSz.2).1)
    let numWin := numSteps imageSize.1 roi.1 (strideNat roi.1 overlap) *
      numSteps imageSize.2 roi.2 (strideNat roi.2 overlap)
    let total := numWin * inputs.batch
    if swBatchSize = 0 then
      .error "ValueError: range() arg 3 must not be zero"
    else
      match (groupOffsets total swBatchSize).foldlM
          (runGroup roi inputSize imageSize inputs.channels total swBatchSize pred)
          ⟨none, true, [], 0⟩ with
      | .error e => .error e
      | .ok st =>
        match finalizeOutputs st inputs.batch roi imgSz padL inputs.isMeta with
        | .error e => .error e
        | .ok out => .ok ⟨out, st.calls⟩

/-- C8: for image shape `[2,3,8,8]`, window `[8,8]`, overlap `0` and
predictor batch size `1`, the engine plans one window per image, crosses
it with the two batch elements, invokes the (shape-preserving) predictor
exactly twice, and returns a single tensor of shape `[2,3,8,8]`. -/
theorem C8_two_invocations :
    slidingWindowInference ⟨2, 3, 8, 8, false⟩ (8, 8) (8, 8) 1
      (fun _ t => .tensor t) 0 none = .ok ⟨.tensor ⟨2, 3, 8, 8, false⟩, 2⟩ := by
  with_unfolding_all rfl

/-- C9: a `MetaTensor` input reaches line 256 of the source, which calls
`convert_to_dst_type` — a name absent from the module's imports (lines
1-13) — so the call raises `NameError` instead of returning the output
with metadata attached. -/
theorem C9_metatensor_name_error :
    convertToDstTypeInScope = false ∧
    slidingWindowInference ⟨1, 1, 8, 8, true⟩ (8, 8) (8, 8) 1
      (fun _ t => .tensor t) 0 none =
      .error "NameError: name convert_to_dst_type is not defined" := by
  constructor
  · decide
  · with_unfolding_all rfl

/-- C1: the claim fails for non-tensor predictor outputs: when the
predictor resolution differs from the window resolution and the
predictor returns a named mapping, line 128 of the source passes the raw
mapping to `functional.interpolate`, which raises `TypeError`; nothing
is resampled or handed to the accumulator. -/
theorem C1_counterexample :
    slidingWindowInference ⟨1, 1, 4, 4, false⟩ (4, 4) (8, 8) 1
      (fun _ t => .mapping [("a", t)]) 0 none =
      .error "TypeError: interpolate expects a Tensor, not a sequence or mapping" := by
  with_unfolding_all rfl

/-- C1 (amended): when the predictor resolution differs from the window
resolution, only a single-tensor output is resampled back to the window
resolution before accumulation — a sequence or mapping output raises
`TypeError` at the resample step.  For a tensor-valued shape-preserving
predictor the whole call succeeds: the patch is upsampled to the
predictor resolution before prediction (the predictor below returns a
non-tensor unless its input is `8 × 8`, so success shows the upsample
happened), the prediction is downsampled back to `4 × 4` before
accumulation (zoom scale 1), and the final output has the spatial shape
of the original `6 × 6` image, not the predictor resolution. -/
theorem C1_tensor_resampled :
    (slidingWindowInference ⟨1, 1, 6, 6, false⟩ (4, 4) (8, 8) 1
        (fun _ t => if t.s0 = 8 ∧ t.s1 = 8 then PredOut.tensor t else .seq [])
        0 none = .ok ⟨.tensor ⟨1, 1, 6, 6, false⟩, 4⟩) ∧
    (∀ (t : Tensor) (roi : Nat × Nat),
      interpolateOut (.tensor t) roi = .ok (.tensor (interpolate t roi)) ∧
      (interpolate t roi).s0 = roi.1 ∧ (interpolate t roi).s1 = roi.2) ∧
    (∀ (out : PredOut) (roi : Nat × Nat), (∀ t, out ≠ .tensor t) →
      ∃ e, interpolateOut out roi = Except.error e) := by
  refine ⟨by with_unfolding_all rfl, ?_, ?_⟩
  · intro t roi
    exact ⟨rfl, rfl, rfl⟩
  · intro out roi hout
    cases out with
    | tensor t => exact absurd rfl (hout t)
    | seq ts => exact ⟨_, rfl⟩
    | mapping m => exact ⟨_, rfl⟩

theorem lookupAll_ok_iff (m : List (String × Tensor)) (ks : List String) :
    (∃ ts, lookupAll m ks = .ok ts) ↔ ∀ k ∈ ks, (m.lookup k).isSome := by
  induction ks with
  | nil => simp [lookupAll]
  | cons k ks ih =>
      simp only [lookupAll, List.mem_cons, forall_eq_or_imp]
      cases hl : m.lookup k with
      | none =>
          simp only [Option.isSome_none]
          constructor
          · rintro ⟨ts, h⟩
            cases h
          · rintro ⟨h, -⟩
            cases h
      | some t =>
          cases hr : lookupAll m ks with
          | error e =>
              simp only [Except.map]
              constructor
              · rintro ⟨ts, h⟩
                cases h
              · rintro ⟨-, hall⟩
                obtain ⟨ts, hts⟩ := ih.mpr hall
                rw [hts] at hr
                cases hr
          | ok ts =>
              simp only [Except.map]
              constructor
              · intro _
                exact ⟨rfl, ih.mp ⟨ts, hr⟩⟩
              · intro _
                exact ⟨t :: ts, rfl⟩

/-- C2: the claim fails for a strict superset of the first batch's keys:
with `dict_key` fixed to `["a", "b"]` by the first batch, a later batch
returning keys `{a, b, c}` is accepted silently (line 149 reads only the
tracked keys), so no contract violation is raised and the call returns
normally. -/
theorem C2_counterexample :
    slidingWindowInference ⟨1, 1, 8, 8, false⟩ (4, 4) (4, 4) 1
      (fun i t => if i = 0 then .mapping [("a", t), ("b", t)]
        else .mapping [("a", t), ("b", t), ("c", t)]) 0 none =
      .ok ⟨.mapping [("a", ⟨1, 1, 8, 8, false⟩), ("b", ⟨1, 1, 8, 8, false⟩)], 4⟩ := by
  with_unfolding_all rfl

/-- C2 (amended): with the key set fixed by the first mapping-valued
batch, a later mapping-valued batch aborts the call (raising `KeyError`,
no partial result) exactly when one of the tracked keys is missing from
it; a batch whose keys are a strict superset of the tracked keys is
accepted silently, the extra keys being ignored. -/
theorem C2_missing_key_only (ks : List String) (b : Bool)
    (m : List (String × Tensor)) :
    ((∃ r, dispatch (some ks) b (.mapping m) = .ok r) ↔
      ∀ k ∈ ks, (m.lookup k).isSome) ∧
    ((∃ k ∈ ks, m.lookup k = none) →
      ∃ e, dispatch (some ks) b (.mapping m) = Except.error e) ∧
    slidingWindowInference ⟨1, 1, 8, 8, false⟩ (4, 4) (4, 4) 1
      (fun i t => if i = 0 then .mapping [("a", t), ("b", t)]
        else .mapping [("a", t)]) 0 none = .error "KeyError: b" := by
  refine ⟨?_, ?_, by with_unfolding_all rfl⟩
  · simp only [dispatch]
    cases hr : lookupAll m ks with
    | error e =>
        simp only [Except.map]
        constructor
        · rintro ⟨r, h⟩
          cases h
        · intro hall
          obtain ⟨ts, hts⟩ := (lookupAll_ok_iff m ks).mpr hall
          rw [hts] at hr
          cases hr
    | ok ts =>
        simp only [Except.map]
        constructor
        · intro _
          exact (lookupAll_ok_iff m ks).mp ⟨ts, hr⟩
        · intro _
          exact ⟨_, rfl⟩
  · intro ⟨k, hk, hnone⟩
    simp only [dispatch]
    cases hr : lookupAll m ks with
    | error e => exact ⟨e, rfl⟩
    | ok ts =>
        exfalso
        have := (lookupAll_ok_iff m ks).mp ⟨ts, hr⟩ k hk
        rw [hnone] at this
        cases this

/-- C4: the claim fails: the guard of line 76 never reads the supplied
map's shape, so a `roi_weight_map` of shape `5 × 5` is used although the
valid window shape is `4 × 4`. -/
theorem C4_counterexample :
    usesRoiWeightMap (8, 8) (4, 4) (some (5, 5)) = true ∧
      (5, 5) ≠ getValidPatchSize (8, 8) (4, 4) := by decide

theorem validPatch_eq (img roi : Nat × Nat) :
    getValidPatchSize
      (max img.1 (fallBackTuple roi img).1, max img.2 (fallBackTuple roi img).2)
      (fallBackTuple roi img) = fallBackTuple roi img := by
  obtain ⟨i1, i2⟩ := img
  obtain ⟨r1, r2⟩ := roi
  simp only [fallBackTuple, getValidPatchSize, Prod.mk.injEq]
  constructor <;> split_ifs <;> omega

/-- C4 (amended): the guard of line 76 compares the valid patch size
with the window size, and after the image size is clamped to at least
the (fallen-back) window size these are always equal, so a supplied
`roi_weight_map` is used exactly when it is supplied; its shape is never
checked. -/
theorem C4_used_iff_supplied (img roi : Nat × Nat) (m : Option (Nat × Nat)) :
    usesRoiWeightMap
      (max img.1 (fallBackTuple roi img).1, max img.2 (fallBackTuple roi img).2)
      (fallBackTuple roi img) m = m.isSome := by
  unfold usesRoiWeightMap
  rw [validPatch_eq]
  simp

theorem round_mono_q (a b : ℚ) (h : a ≤ b) : round a ≤ round b := by
  rw [round_eq, round_eq]
  exact Int.floor_le_floor (by linarith)

theorem zStart_one (n k : Nat) (hk : 0 < k) : zStart (zoomScale k k) n = n := by
  unfold zStart zoomScale pyInt
  rw [div_self (Nat.cast_ne_zero.mpr hk.ne' : ((k : ℚ) ≠ 0))]
  rw [mul_one, Int.floor_natCast, Int.toNat_natCast]

/-- One axis of the finalizer roundtrip: with the accumulator extent
equal to the padded extent, stripping the scaled padding recovers the
original axis extent, in both regimes of the padding logic (the padded
regime has recomputed zoom 1; the unpadded regime scales the stop bound
beyond the extent, where Python slicing clamps it back). -/
theorem finalAxis_strip (i r : Nat) (hr : 0 < r) :
    sliceLen ((pyRound (((padPair r i).1 : ℚ) * zoomScale (max i r) r)).toNat)
      ((pyRound (((i + (padPair r i).1 : Nat) : ℚ) * zoomScale (max i r) r)).toNat)
      (max i r) = i := by
  rcases Nat.le_total r i with hle | hle
  · have hmax : max i r = i := max_eq_left hle
    have hpad : (padPair r i).1 = 0 := by
      unfold padPair
      omega
    rw [hmax, hpad]
    have hstart : (pyRound (((0 : Nat) : ℚ) * zoomScale i r)).toNat = 0 := by
      norm_num [pyRound]
    have hz1 : (1 : ℚ) ≤ zoomScale i r := by
      unfold zoomScale
      rw [le_div_iff (by exact_mod_cast hr)]
      exact_mod_cast by omega
    have hstop : i ≤ (pyRound (((i + 0 : Nat) : ℚ) * zoomScale i r)).toNat := by
      have hmul : (i : ℚ) ≤ ((i + 0 : Nat) : ℚ) * zoomScale i r := by
        push_cast
        nlinarith [hz1, (by positivity : (0 : ℚ) ≤ (i : ℚ))]
      have hrd : (i : ℤ) ≤ pyRound (((i + 0 : Nat) : ℚ) * zoomScale i r) := by
        have := round_mono_q (i : ℚ) _ hmul
        rwa [round_natCast] at this
      have := Int.toNat_le_toNat hrd
      rwa [Int.toNat_natCast] at this
    rw [hstart]
    unfold sliceLen
    have hmin : min ((pyRound (((i + 0 : Nat) : ℚ) * zoomScale i r)).toNat) i = i :=
      min_eq_right hstop
    omega
  · have hmax : max i r = r := max_eq_right hle
    have hz : zoomScale r r = 1 := by
      unfold zoomScale
      exact div_self (Nat.cast_ne_zero.mpr hr.ne')
    rw [hmax, hz]
    have hstart : (pyRound (((padPair r i).1 : ℚ) * 1)).toNat = (padPair r i).1 := by
      rw [mul_one, pyRound, round_natCast, Int.toNat_natCast]
    have hstop : (pyRound (((i + (padPair r i).1 : Nat) : ℚ) * 1)).toNat
        = i + (padPair r i).1 := by
      rw [mul_one, pyRound, round_natCast, Int.toNat_natCast]
    rw [hstart, hstop]
    unfold sliceLen padPair
    simp only
    omega

/-- C7: with zoom scale 1 (the prediction resolution equals the window
resolution, so the accumulator extent is the padded image size), the
padding added by the planner is exactly stripped by the finalizer: each
returned head recovers the spatial shape of the original unpadded
image. -/
theorem C7_padding_roundtrip (i1 i2 r1 r2 c k1 k2 : Nat)
    (h1 : 0 < r1) (h2 : 0 < r2) (hk1 : 0 < k1) (hk2 : 0 < k2) :
    zStart (zoomScale k1 k1) (max i1 r1) = max i1 r1 ∧
    zStart (zoomScale k2 k2) (max i2 r2) = max i2 r2 ∧
    finalHeadShape ⟨c, max i1 r1, max i2 r2⟩ (r1, r2) (i1, i2)
      ((padPair r1 i1).1, (padPair r2 i2).1) = (i1, i2) := by
  refine ⟨zStart_one _ _ hk1, zStart_one _ _ hk2, ?_⟩
  unfold finalHeadShape
  simp only [Prod.mk.injEq]
  exact ⟨finalAxis_strip i1 r1 h1, finalAxis_strip i2 r2 h2⟩

theorem C7_padding_roundtrip_witness :
    ((0 : Nat) < 4 ∧ (0 : Nat) < 7) ∧
    (zStart (zoomScale 7 7) (max 5 4) = max 5 4 ∧
      zStart (zoomScale 7 7) (max 3 4) = max 3 4 ∧
      finalHeadShape ⟨1, max 5 4, max 3 4⟩ (4, 4) (5, 3)
        ((padPair 4 5).1, (padPair 4 3).1) = (5, 3)) :=
  ⟨⟨by decide, by decide⟩,
    C7_padding_roundtrip 5 3 4 4 1 7 7 (by decide) (by decide) (by decide) (by decide)⟩

theorem groupOffsets_cons (total swb : Nat) (ht : 0 < total) (hs : 0 < swb) :
    ∃ rest, groupOffsets total swb = 0 :: rest := by
  unfold groupOffsets
  have h1 : 1 ≤ (total + swb - 1) / swb := (Nat.one_le_div_iff hs).mpr (by omega)
  obtain ⟨m, hm⟩ : ∃ m, (total + swb - 1) / swb = m + 1 :=
    ⟨(total + swb - 1) / swb - 1, by omega⟩
  rw [hm, List.range_succ_eq_map]
  refine ⟨(List.range m).map (fun i => Nat.succ i * swb), ?_⟩
  simp [List.map_map, Function.comp]

theorem runGroup_nonsquare (roi inputSize imageSize : Nat × Nat)
    (channels total swb : Nat) (pred : Predictor) (st : LoopState) (g : Nat)
    (hne : roi.1 ≠ roi.2) :
    runGroup roi inputSize imageSize channels total swb pred st g =
      .error "AssertionError: window_data.shape[2] == roi_size[1]" := by
  unfold runGroup windowAsserts
  simp [hne]

theorem foldlM_error_head {α σ : Type} (f : σ → α → Except String σ) (s : σ)
    (x : α) (xs : List α) (e : String) (h : f s x = .error e) :
    (x :: xs).foldlM f s = .error e := by
  rw [List.foldlM_cons, h]
  rfl

/-- The whole call fails with the reversed-shape assertion whenever the
effective 2D window is not square, for any predictor. -/
theorem swi_nonsquare_error (roiArg inputSize : Nat × Nat) (inputs : Tensor)
    (swb : Nat) (overlap : ℚ) (rwm : Option (Nat × Nat)) (pred : Predictor)
    (ho1 : 0 ≤ overlap) (ho2 : overlap < 1) (hswb : 0 < swb)
    (hb : 0 < inputs.batch)
    (hne : (fallBackTuple roiArg (inputs.s0, inputs.s1)).1 ≠
        (fallBackTuple roiArg (inputs.s0, inputs.s1)).2) :
    slidingWindowInference inputs roiArg inputSize swb pred overlap rwm =
      .error "AssertionError: window_data.shape[2] == roi_size[1]" := by
  have hov : ¬(overlap < 0 ∨ 1 ≤ overlap) := by
    push_neg
    exact ⟨ho1, ho2⟩
  simp only [slidingWindowInference, if_neg hov, if_neg hswb.ne']
  obtain ⟨rest, hgo⟩ := groupOffsets_cons
    (numSteps (max inputs.s0 (fallBackTuple roiArg (inputs.s0, inputs.s1)).1)
        (fallBackTuple roiArg (inputs.s0, inputs.s1)).1
        (strideNat (fallBackTuple roiArg (inputs.s0, inputs.s1)).1 overlap) *
      numSteps (max inputs.s1 (fallBackTuple roiArg (inputs.s0, inputs.s1)).2)
        (fallBackTuple roiArg (inputs.s0, inputs.s1)).2
        (strideNat (fallBackTuple roiArg (inputs.s0, inputs.s1)).2 overlap) *
      inputs.batch) swb
    (Nat.mul_pos (Nat.mul_pos (numSteps_pos _ _ _) (numSteps_pos _ _ _)) hb) hswb
  rw [hgo]
  rw [foldlM_error_head _ _ _ _ _ (runGroup_nonsquare _ _ _ _ _ _ pred _ 0 hne)]

/-- C10: the patch assertions of lines 114-115 compare the extracted
patch shape with the window size in reversed axis order, so for a 2D
call they pass exactly when the effective window is square; a
non-square window aborts the whole call with `AssertionError` before the
predictor is ever consulted (the result is the same for every
predictor). -/
theorem C10_nonsquare_assertion (roiArg inputSize : Nat × Nat) (inputs : Tensor)
    (swb : Nat) (overlap : ℚ) (rwm : Option (Nat × Nat)) (pred pred' : Predictor)
    (ho1 : 0 ≤ overlap) (ho2 : overlap < 1) (hswb : 0 < swb)
    (hb : 0 < inputs.batch)
    (hne : (fallBackTuple roiArg (inputs.s0, inputs.s1)).1 ≠
        (fallBackTuple roiArg (inputs.s0, inputs.s1)).2) :
    slidingWindowInference inputs roiArg inputSize swb pred overlap rwm =
      .error "AssertionError: window_data.shape[2] == roi_size[1]" ∧
    slidingWindowInference inputs roiArg inputSize swb pred overlap rwm =
      slidingWindowInference inputs roiArg inputSize swb pred' overlap rwm ∧
    (∀ (wd : Tensor) (roi : Nat × Nat), wd.s0 = roi.1 → wd.s1 = roi.2 →
      (windowAsserts wd roi = .ok () ↔ roi.1 = roi.2)) := by
  have h1 := swi_nonsquare_error roiArg inputSize inputs swb overlap rwm pred
    ho1 ho2 hswb hb hne
  have h2 := swi_nonsquare_error roiArg inputSize inputs swb overlap rwm pred'
    ho1 ho2 hswb hb hne
  refine ⟨h1, h1.trans h2.symm, ?_⟩
  intro wd roi hs0 hs1
  unfold windowAsserts
  constructor
  · intro h
    by_contra hcon
    rw [if_pos (by omega : wd.s0 ≠ roi.2)] at h
    cases h
  · intro h
    rw [if_neg (by omega : ¬wd.s0 ≠ roi.2), if_neg (by omega : ¬wd.s1 ≠ roi.1)]

theorem C10_nonsquare_assertion_witness :
    ((0 : ℚ) ≤ 0 ∧ (0 : ℚ) < 1 ∧ (0 : Nat) < 1 ∧ (0 : Nat) < 1 ∧
      (fallBackTuple (4, 6) (8, 8)).1 ≠ (fallBackTuple (4, 6) (8, 8)).2) ∧
    (slidingWindowInference ⟨1, 1, 8, 8, false⟩ (4, 6) (4, 6) 1
        (fun _ t => .tensor t) 0 none =
      .error "AssertionError: window_data.shape[2] == roi_size[1]" ∧
    slidingWindowInference ⟨1, 1, 8, 8, false⟩ (4, 6) (4, 6) 1
        (fun _ t => .tensor t) 0 none =
      slidingWindowInference ⟨1, 1, 8, 8, false⟩ (4, 6) (4, 6) 1
        (fun _ _ => .seq []) 0 none ∧
    (∀ (wd : Tensor) (roi : Nat × Nat), wd.s0 = roi.1 → wd.s1 = roi.2 →
      (windowAsserts wd roi = .ok () ↔ roi.1 = roi.2))) :=
  ⟨⟨by norm_num, by norm_num, by decide, by decide, by decide⟩,
    C10_nonsquare_assertion (4, 6) (4, 6) ⟨1, 1, 8, 8, false⟩ 1 0 none
      (fun _ t => .tensor t) (fun _ _ => .seq [])
      (by norm_num) (by norm_num) (by decide) (by decide) (by decide)⟩

end SWI
